import Mathlib

/-!
Verification of the userver task-engine core and the ClickHouse `Cluster`
helpers, as a shallow embedding.

Sources embedded directly:
* `core/include/userver/engine/task/task_base.hpp` — the `TaskBase` enums and
  the `WaitFor`/`WaitUntil` template forwarders;
* `clickhouse/.../cluster.cpp` — `WrappingIncrement`, the `Cluster`
  constructor and `Cluster::GetPool`.

The implementation of the task state machine, the wait loop, cancellation and
handle dispatch live outside the supplied sources; those parts are modelled
from the specification, each such definition carries a doc comment starting
with `Modelled from the spec:`.
-/

namespace Userver

/-- `TaskBase::State` from task_base.hpp (lines 50-58). -/
inductive State where
  | kInvalid
  | kNew
  | kQueued
  | kRunning
  | kSuspended
  | kCancelled
  | kCompleted
deriving DecidableEq, Repr

/-- `TaskBase::Importance` from task_base.hpp (lines 38-47). -/
inductive Importance where
  | kNormal
  | kCritical
deriving DecidableEq, Repr

/-- `TaskBase::WaitMode` from task_base.hpp (lines 61-66). -/
inductive WaitMode where
  | kSingleWaiter
  | kMultipleWaiters
deriving DecidableEq, Repr

/-- Modelled from the spec: `TaskCancellationReason` (cancel.hpp is not among
the supplied sources); the spec lists `{None, UserRequest, Timeout,
ShutdownRequest}`. -/
inductive TaskCancellationReason where
  | kNone
  | kUserRequest
  | kTimeout
  | kShutdownRequest
deriving DecidableEq, Repr

/-- Modelled from the spec: the Task Context control block, restricted to the
attributes the claims are about: `state`, `importance`, `cancellation_reason`. -/
structure TaskContext where
  state : State
  importance : Importance
  cancellationReason : TaskCancellationReason
deriving DecidableEq, Repr

/-- `TaskBase::IsFinished` — whether the task exited user code
(terminal states `kCancelled`/`kCompleted`). -/
def TaskBase.IsFinished (ctx : TaskContext) : Bool :=
  decide (ctx.state = State.kCancelled ∨ ctx.state = State.kCompleted)

/-- Modelled from the spec: the sticky update of `cancellation_reason` — set
only when no reason is present yet, never reset, never overwritten. -/
def SetCancellationReason (old new_ : TaskCancellationReason) : TaskCancellationReason :=
  if old = TaskCancellationReason.kNone then new_ else old

/-- Modelled from the spec: `TaskBase::RequestCancel` — non-blocking, sets the
`UserRequest` reason if none more specific is already set; a pure state update. -/
def RequestCancel (ctx : TaskContext) : TaskContext :=
  { ctx with cancellationReason :=
      SetCancellationReason ctx.cancellationReason TaskCancellationReason.kUserRequest }

/-- Modelled from the spec: the Task Context state machine of section 4.1.
`New -> Queued -> Running -> (Suspended -> Running)* -> Completed | Cancelled`;
a Normal context with a pending cancellation reason at dequeue time goes
`Queued -> Cancelled` without running user code, while a Critical context is
always dequeued to `Running`; a running context observes cancellation at a
suspension point; cancellation requests only touch the sticky reason. -/
inductive Step : TaskContext → TaskContext → Prop where
  | submit (ctx : TaskContext) :
      ctx.state = State.kNew →
      Step ctx { ctx with state := State.kQueued }
  | dequeueRun (ctx : TaskContext) :
      ctx.state = State.kQueued →
      (ctx.cancellationReason = TaskCancellationReason.kNone ∨
        ctx.importance = Importance.kCritical) →
      Step ctx { ctx with state := State.kRunning }
  | dequeueCancelled (ctx : TaskContext) :
      ctx.state = State.kQueued →
      ctx.importance = Importance.kNormal →
      ctx.cancellationReason ≠ TaskCancellationReason.kNone →
      Step ctx { ctx with state := State.kCancelled }
  | suspend (ctx : TaskContext) :
      ctx.state = State.kRunning →
      Step ctx { ctx with state := State.kSuspended }
  | resume (ctx : TaskContext) :
      ctx.state = State.kSuspended →
      Step ctx { ctx with state := State.kRunning }
  | complete (ctx : TaskContext) :
      ctx.state = State.kRunning →
      Step ctx { ctx with state := State.kCompleted }
  | cancelAtSuspensionPoint (ctx : TaskContext) :
      ctx.state = State.kRunning →
      ctx.cancellationReason ≠ TaskCancellationReason.kNone →
      Step ctx { ctx with state := State.kCancelled }
  | requestCancel (ctx : TaskContext) :
      Step ctx (RequestCancel ctx)
  | engineCancel (ctx : TaskContext) (r : TaskCancellationReason) :
      r ≠ TaskCancellationReason.kNone →
      Step ctx { ctx with cancellationReason := SetCancellationReason ctx.cancellationReason r }

/-- Reachability of one context snapshot from another by scheduler steps. -/
def Reachable : TaskContext → TaskContext → Prop :=
  Relation.ReflTransGen Step

/-- Modelled from the spec: `engine::Deadline` — either `Unreachable` (never
expires) or an absolute monotonic instant (deadline.hpp is not among the
supplied sources); time is modelled as integer ticks. -/
inductive Deadline where
  | kUnreachable
  | timePoint (t : Int)
deriving DecidableEq, Repr

/-- Modelled from the spec: `Deadline::FromDuration` — the absolute instant
`now + d`; a non-positive duration yields an already-expired deadline. -/
def Deadline.FromDuration (now d : Int) : Deadline :=
  Deadline.timePoint (now + d)

/-- Modelled from the spec: `Deadline::FromTimePoint` — the given absolute
instant. -/
def Deadline.FromTimePoint (t : Int) : Deadline :=
  Deadline.timePoint t

/-- Modelled from the spec: whether a deadline has expired at instant `now`. -/
def Deadline.IsReached : Deadline → Int → Bool
  | Deadline.kUnreachable, _ => false
  | Deadline.timePoint t, now => decide (t ≤ now)

/-- Modelled from the spec: what the waiting caller observes at one poll of
the wait loop — the current instant, whether the target task has reached a
terminal state, whether the caller's own cancellation is requested
(`current_task::IsCancelRequested()`), and whether a
`TaskCancellationBlocker` scope is active at the caller. -/
structure WaitObs where
  time : Int
  targetFinished : Bool
  callerCancelRequested : Bool
  blockersActive : Bool
deriving DecidableEq, Repr

/-- Outcome of a `Wait`/`WaitFor`/`WaitUntil` call: the target finished, the
deadline elapsed first (normal return), or the caller itself was cancelled
(`WaitInterruptedException`). -/
inductive WaitForOutcome where
  | finished
  | timedOut
  | interrupted
deriving DecidableEq, Repr

/-- Modelled from the spec: one poll of the deadline wait loop. Cancellation
of the caller wins over a bare wake (section 4.2 tie-break); a finished
target returns normally; an elapsed deadline returns the timed-out
discriminator; otherwise the caller keeps sleeping. -/
def WaitUntilPoll (dl : Deadline) (o : WaitObs) : Option WaitForOutcome :=
  if o.callerCancelRequested && !o.blockersActive then some WaitForOutcome.interrupted
  else if o.targetFinished then some WaitForOutcome.finished
  else if dl.IsReached o.time then some WaitForOutcome.timedOut
  else none

/-- Modelled from the spec: the wait loop run over a finite trace of polls;
`none` means the wait was still pending when the trace ended. -/
def WaitUntilRun (dl : Deadline) : List WaitObs → Option WaitForOutcome
  | [] => none
  | o :: rest =>
    match WaitUntilPoll dl o with
    | some r => some r
    | none => WaitUntilRun dl rest

/-- `TaskBase::WaitUntil(Deadline)` — the absolute-deadline wait, the common
implementation both convenience overloads forward to. -/
def TaskBase.WaitUntilD (dl : Deadline) (trace : List WaitObs) : Option WaitForOutcome :=
  WaitUntilRun dl trace

/-- `TaskBase::WaitFor(duration)` as defined in task_base.hpp lines 188-191:
`WaitUntil(Deadline::FromDuration(duration))`. -/
def TaskBase.WaitFor (d now : Int) (trace : List WaitObs) : Option WaitForOutcome :=
  TaskBase.WaitUntilD (Deadline.FromDuration now d) trace

/-- `TaskBase::WaitUntil(time_point)` as defined in task_base.hpp lines
193-196: `WaitUntil(Deadline::FromTimePoint(until))`. -/
def TaskBase.WaitUntilTimePoint (t : Int) (trace : List WaitObs) : Option WaitForOutcome :=
  TaskBase.WaitUntilD (Deadline.FromTimePoint t) trace

/-- Modelled from the spec: `TaskBase::Wait` — as the deadline wait with a
never-expiring deadline (suspends until the target finishes or the caller is
cancelled). -/
def TaskBase.Wait (trace : List WaitObs) : Option WaitForOutcome :=
  WaitUntilRun Deadline.kUnreachable trace

/-- Modelled from the spec: a caller's deadline wait together with the target
context it waits on; waiting (and in particular timing out) never mutates the
target, which is returned unchanged. -/
def TaskBase.WaitForFull (target : TaskContext) (dl : Deadline) (trace : List WaitObs) :
    Option WaitForOutcome × TaskContext :=
  (WaitUntilRun dl trace, target)

/-- Modelled from the spec: one deterministic scheduler step driving a
cancel-requested context toward a terminal state: a New context is submitted,
a Queued Normal context is finalized as Cancelled without running, a Queued
Critical context is dequeued to Running, a Running context observes the
cancellation at its next suspension point, a Suspended context is woken. -/
def CancelStep (ctx : TaskContext) : TaskContext :=
  match ctx.state with
  | State.kNew => { ctx with state := State.kQueued }
  | State.kQueued =>
    if ctx.importance = Importance.kCritical then { ctx with state := State.kRunning }
    else { ctx with state := State.kCancelled }
  | State.kRunning => { ctx with state := State.kCancelled }
  | State.kSuspended => { ctx with state := State.kRunning }
  | _ => ctx

/-- Modelled from the spec: how many scheduler steps a cancel-requested
context can still be away from a terminal state. -/
def CancelRank (ctx : TaskContext) : Nat :=
  match ctx.state with
  | State.kNew => 4
  | State.kQueued => 3
  | State.kSuspended => 2
  | State.kRunning => 1
  | _ => 0

/-- Modelled from the spec: iterated driving of a context by `CancelStep`. -/
def CancelStepIter : Nat → TaskContext → TaskContext
  | 0, ctx => ctx
  | n + 1, ctx => CancelStepIter n (CancelStep ctx)

/-- Modelled from the spec: `TaskBase::SyncCancel` — `RequestCancel` followed
by blocking until the target reaches a terminal state; a total function
(never throws, never deadlocks), four scheduler steps always suffice. -/
def SyncCancel (ctx : TaskContext) : TaskContext :=
  CancelStepIter 4 (RequestCancel ctx)

/-- A Task Base handle: a thin, nullable reference to a Task Context
(task_base.hpp lines 68-77: invalid after default construction, `Detach()`,
or `Get()`). -/
structure TaskBaseHandle where
  context : Option TaskContext
deriving DecidableEq, Repr

/-- `TaskBase::TaskBase()` — the default-constructed handle owns no task. -/
def TaskBaseHandle.Default : TaskBaseHandle :=
  ⟨none⟩

/-- `TaskBase::IsValid` — whether this object owns an actual task. -/
def TaskBaseHandle.IsValid (h : TaskBaseHandle) : Bool :=
  h.context.isSome

/-- `TaskBase::GetState` — `kInvalid` for a handle owning no task. -/
def TaskBaseHandle.GetState (h : TaskBaseHandle) : State :=
  match h.context with
  | none => State.kInvalid
  | some ctx => ctx.state

/-- The operations of the Task Base handle other than the validity/state
checks `IsValid`/`GetState`. -/
inductive HandleOp where
  | wait
  | waitUntil
  | blockingWait
  | requestCancel
  | syncCancel
  | cancellationReason
  | detach
  | get
deriving DecidableEq, Repr

/-- Modelled from the spec: the loud failure of invalid-handle usage — a
defined error, never a silent no-op. -/
inductive HandleUsageError where
  | invalidHandle
deriving DecidableEq, Repr

/-- The observable effect of a handle operation that went through. -/
inductive OpEffect where
  | waited (r : Option WaitForOutcome)
  | cancelRequested (ctx : TaskContext)
  | syncCancelled (ctx : TaskContext)
  | reasonIs (r : TaskCancellationReason)
  | detached
  | gotResult (ctx : TaskContext)
deriving DecidableEq, Repr

/-- Modelled from the spec: dispatch of a handle operation. A handle owning
no context rejects every operation with a defined error; a valid handle runs
the operation against its context, and `detach`/`get` invalidate the handle. -/
def TaskBaseHandle.RunOp (h : TaskBaseHandle) (op : HandleOp) (dl : Deadline)
    (trace : List WaitObs) : Except HandleUsageError (OpEffect × TaskBaseHandle) :=
  match h.context with
  | none => Except.error HandleUsageError.invalidHandle
  | some ctx =>
    match op with
    | HandleOp.wait => Except.ok (OpEffect.waited (TaskBase.Wait trace), h)
    | HandleOp.waitUntil => Except.ok (OpEffect.waited (TaskBase.WaitUntilD dl trace), h)
    | HandleOp.blockingWait => Except.ok (OpEffect.waited (TaskBase.Wait trace), h)
    | HandleOp.requestCancel =>
      Except.ok (OpEffect.cancelRequested (RequestCancel ctx), ⟨some (RequestCancel ctx)⟩)
    | HandleOp.syncCancel =>
      Except.ok (OpEffect.syncCancelled (SyncCancel ctx), ⟨some (SyncCancel ctx)⟩)
    | HandleOp.cancellationReason =>
      Except.ok (OpEffect.reasonIs ctx.cancellationReason, h)
    | HandleOp.detach => Except.ok (OpEffect.detached, ⟨none⟩)
    | HandleOp.get => Except.ok (OpEffect.gotResult ctx, ⟨none⟩)

/-- One ClickHouse endpoint, an element of `ClickhouseSettings::endpoints`
(cluster.cpp line 48). -/
structure Endpoint where
  host : String
deriving DecidableEq, Repr

/-- The result store of the submitted `init_tasks`: the scheduler executes
the tasks in the order given by `sched` (a list of task indices); executing
the task with index `j` stores that task's outcome in slot `j`, and a slot is
`none` while its task has not been executed yet. -/
def RunSchedule {α : Type} (payloads : List α) : List Nat → Nat → Option α
  | [] => fun _ => none
  | j :: rest => fun i => if i = j then payloads[i]? else RunSchedule payloads rest i

/-- Sequential collection of the task results by index (`Get` in submission
order): a `Get` on a task that never completes blocks forever (`none`); a
`Get` on a failed task rethrows the stored failure, which propagates out of
the collecting loop at once; otherwise the pools accumulate in index order.
This is the loop `for (auto& init_task : init_tasks) pools_.emplace_back(init_task.Get());`
of cluster.cpp lines 62-64. -/
def CollectGets {ε α : Type} (store : Nat → Option (Except ε α)) :
    List Nat → Option (Except ε (List α))
  | [] => some (Except.ok [])
  | i :: rest =>
    match store i with
    | none => none
    | some (Except.error e) => some (Except.error e)
    | some (Except.ok a) =>
      match CollectGets store rest with
      | none => none
      | some (Except.error e) => some (Except.error e)
      | some (Except.ok tail) => some (Except.ok (a :: tail))

/-- Sequencing of task outcomes in submission order: the pools in order if
every task succeeded, otherwise the first failure in index order. -/
def SequenceResults {ε α : Type} : List (Except ε α) → Except ε (List α)
  | [] => Except.ok []
  | Except.error e :: _ => Except.error e
  | Except.ok a :: rest =>
    match SequenceResults rest with
    | Except.error e => Except.error e
    | Except.ok tail => Except.ok (a :: tail)

/-- `Cluster::Cluster` from cluster.cpp lines 45-65: submit one `utils::Async`
task per endpoint (`init_tasks`, each computing one `Pool` or throwing), let
the worker threads complete them in the arbitrary order `sched`, then collect
the pools via sequential `Get` in endpoint order. `mkPool` abstracts the
payload `Pool{resolver, PoolSettings{config, endpoint, auth_settings}}`. -/
def Cluster.Init {ε α : Type} (endpoints : List Endpoint) (mkPool : Endpoint → Except ε α)
    (sched : List Nat) : Option (Except ε (List α)) :=
  let init_tasks := endpoints.map mkPool
  let store := RunSchedule init_tasks sched
  CollectGets store (List.range endpoints.length)

/-- `WrappingIncrement` from cluster.cpp lines 38-41: `return (value++) % mod;`
— yields the counter value before the post-increment reduced modulo `mod`,
and the new counter value; the `std::atomic<size_t>` counter wraps at
`2 ^ 64`. -/
def WrappingIncrement (value mod : Nat) : Nat × Nat :=
  (value % mod, (value + 1) % 2 ^ 64)

/-- The `Cluster` state used by `GetPool`: the pools built by the constructor
and the mutable round-robin counter `current_pool_ind_`. -/
structure Cluster (α : Type) where
  pools_ : List α
  current_pool_ind_ : Nat
deriving DecidableEq, Repr

/-- `Cluster::GetPool` from cluster.cpp lines 83-85:
`pools_[WrappingIncrement(current_pool_ind_, pools_.size())]`; the unguarded
vector indexing is modelled with an optional lookup, and the updated counter
is returned alongside. -/
def Cluster.GetPool {α : Type} (c : Cluster α) : Option α × Cluster α :=
  let r := WrappingIncrement c.current_pool_ind_ c.pools_.length
  (c.pools_[r.1]?, { c with current_pool_ind_ := r.2 })

/-- `k` successive calls of `Cluster::GetPool`: the selected pools in call
order together with the final cluster state. -/
def Cluster.GetPoolCalls {α : Type} : Nat → Cluster α → List (Option α) × Cluster α
  | 0, c => ([], c)
  | k + 1, c =>
    let r := Cluster.GetPool c
    let rest := Cluster.GetPoolCalls k r.2
    (r.1 :: rest.1, rest.2)

/-- A sample Queued Critical context with a pending cancellation request. -/
def queuedCriticalCancelled : TaskContext :=
  ⟨State.kQueued, Importance.kCritical, TaskCancellationReason.kUserRequest⟩

/-- A sample finished context. -/
def completedCtx : TaskContext :=
  ⟨State.kCompleted, Importance.kNormal, TaskCancellationReason.kNone⟩

theorem isFinished_iff (ctx : TaskContext) :
    TaskBase.IsFinished ctx = true ↔
      (ctx.state = State.kCancelled ∨ ctx.state = State.kCompleted) := by
  simp [TaskBase.IsFinished]

theorem requestCancel_state (ctx : TaskContext) :
    (RequestCancel ctx).state = ctx.state := rfl

theorem requestCancel_importance (ctx : TaskContext) :
    (RequestCancel ctx).importance = ctx.importance := rfl

theorem step_importance (ctx ctx' : TaskContext) (h : Step ctx ctx') :
    ctx'.importance = ctx.importance := by
  cases h <;> rfl

theorem step_state_of_terminal (ctx ctx' : TaskContext) (h : Step ctx ctx')
    (ht : ctx.state = State.kCancelled ∨ ctx.state = State.kCompleted) :
    ctx'.state = ctx.state := by
  cases h <;> first
    | rfl
    | (rcases ht with ht | ht <;> simp_all)

theorem reachable_finished (ctx ctx' : TaskContext) (h : Reachable ctx ctx')
    (hf : TaskBase.IsFinished ctx = true) :
    TaskBase.IsFinished ctx' = true ∧ ctx'.state = ctx.state := by
  induction h with
  | refl => exact ⟨hf, rfl⟩
  | tail hab hbc ih =>
    obtain ⟨hfb, hsb⟩ := ih
    have hterm := (isFinished_iff _).mp hfb
    have hstep := step_state_of_terminal _ _ hbc hterm
    refine ⟨?_, hstep.trans hsb⟩
    rw [isFinished_iff] at hfb ⊢
    rw [hstep]
    exact hfb

/-- C1: `IsFinished` is false in every state before a terminal state, is true
exactly on the two terminal states `kCompleted`/`kCancelled`, stays true (with
an unchanged state) in every reachable successor of a finished context, and no
context reaches both terminal states. -/
theorem c1_isFinished_terminal :
    (∀ ctx : TaskContext, TaskBase.IsFinished ctx = true ↔
      (ctx.state = State.kCancelled ∨ ctx.state = State.kCompleted))
    ∧ (∀ ctx ctx' : TaskContext, Reachable ctx ctx' → TaskBase.IsFinished ctx = true →
      TaskBase.IsFinished ctx' = true ∧ ctx'.state = ctx.state)
    ∧ (∀ ctx ctx' : TaskContext, Reachable ctx ctx' → ctx.state = State.kCompleted →
      ctx'.state ≠ State.kCancelled)
    ∧ (∀ ctx ctx' : TaskContext, Reachable ctx ctx' → ctx.state = State.kCancelled →
      ctx'.state ≠ State.kCompleted) := by
  refine ⟨isFinished_iff, reachable_finished, ?_, ?_⟩
  · intro ctx ctx' h hc
    have := reachable_finished ctx ctx' h ((isFinished_iff ctx).mpr (Or.inr hc))
    rw [this.2, hc]
    intro hcontra
    exact State.noConfusion hcontra
  · intro ctx ctx' h hc
    have := reachable_finished ctx ctx' h ((isFinished_iff ctx).mpr (Or.inl hc))
    rw [this.2, hc]
    intro hcontra
    exact State.noConfusion hcontra

theorem c1_isFinished_terminal_witness :
    TaskBase.IsFinished completedCtx = true ∧ completedCtx.state ≠ State.kCancelled :=
  ⟨(c1_isFinished_terminal.1 completedCtx).mpr (Or.inr rfl),
    c1_isFinished_terminal.2.2.1 completedCtx completedCtx Relation.ReflTransGen.refl rfl⟩

theorem critical_queued_path (ctx ctx' : TaskContext) (h : Reachable ctx ctx')
    (hcrit : ctx.importance = Importance.kCritical)
    (hq : ctx.state = State.kNew ∨ ctx.state = State.kQueued) :
    ((ctx'.state = State.kNew ∨ ctx'.state = State.kQueued) ∧
      ctx'.importance = Importance.kCritical)
    ∨ (∃ mid, Reachable ctx mid ∧ mid.state = State.kRunning ∧ Reachable mid ctx') := by
  induction h with
  | refl => exact Or.inl ⟨hq, hcrit⟩
  | tail hab hbc ih =>
    rcases ih with ⟨hbq, hbcrit⟩ | ⟨mid, h1, h2, h3⟩
    · cases hbc with
      | submit hb => exact Or.inl ⟨Or.inr rfl, hbcrit⟩
      | dequeueRun hb hrun =>
        exact Or.inr ⟨_, Relation.ReflTransGen.tail hab (Step.dequeueRun _ hb hrun),
          rfl, Relation.ReflTransGen.refl⟩
      | dequeueCancelled hb hnorm hr => simp_all
      | suspend hb => rcases hbq with hbq | hbq <;> simp_all
      | resume hb => rcases hbq with hbq | hbq <;> simp_all
      | complete hb => rcases hbq with hbq | hbq <;> simp_all
      | cancelAtSuspensionPoint hb hr => rcases hbq with hbq | hbq <;> simp_all
      | requestCancel => exact Or.inl ⟨hbq, hbcrit⟩
      | engineCancel r hr => exact Or.inl ⟨hbq, hbcrit⟩
    · exact Or.inr ⟨mid, h1, h2, Relation.ReflTransGen.tail h3 hbc⟩

/-- C2: a Critical context in state `kNew` or `kQueued` never steps directly
to `kCancelled` (even with a pending cancellation reason — no
`Queued -> Cancelled` shortcut), and every path by which a Critical context
that has not started ends up `kCancelled` passes through `kRunning`, i.e. the
payload runs until (at least) its first suspension point. -/
theorem c2_critical_runs :
    (∀ ctx ctx' : TaskContext, ctx.importance = Importance.kCritical →
      (ctx.state = State.kNew ∨ ctx.state = State.kQueued) → Step ctx ctx' →
      ctx'.state ≠ State.kCancelled)
    ∧ (∀ ctx ctx' : TaskContext, ctx.importance = Importance.kCritical →
      (ctx.state = State.kNew ∨ ctx.state = State.kQueued) → Reachable ctx ctx' →
      ctx'.state = State.kCancelled →
      ∃ mid, Reachable ctx mid ∧ mid.state = State.kRunning ∧ Reachable mid ctx') := by
  constructor
  · intro ctx ctx' hcrit hq hstep
    rcases hq with hq | hq <;> cases hstep <;> simp_all [RequestCancel]
  · intro ctx ctx' hcrit hq h hc
    rcases critical_queued_path ctx ctx' h hcrit hq with ⟨hq', _⟩ | hmid
    · rcases hq' with hq' | hq' <;> rw [hq'] at hc <;>
        exact absurd hc (by intro hcontra; exact State.noConfusion hcontra)
    · exact hmid

theorem c2_critical_runs_witness :
    ∃ mid, Reachable queuedCriticalCancelled mid ∧ mid.state = State.kRunning ∧
      Reachable mid ⟨State.kCancelled, Importance.kCritical, TaskCancellationReason.kUserRequest⟩ :=
  c2_critical_runs.2 queuedCriticalCancelled
    ⟨State.kCancelled, Importance.kCritical, TaskCancellationReason.kUserRequest⟩
    rfl (Or.inr rfl)
    (Relation.ReflTransGen.tail
      (Relation.ReflTransGen.single (Step.dequeueRun queuedCriticalCancelled rfl (Or.inr rfl)))
      (Step.cancelAtSuspensionPoint
        ⟨State.kRunning, Importance.kCritical, TaskCancellationReason.kUserRequest⟩
        rfl (by decide)))
    rfl

theorem step_reason_sticky (ctx ctx' : TaskContext) (h : Step ctx ctx')
    (hr : ctx.cancellationReason ≠ TaskCancellationReason.kNone) :
    ctx'.cancellationReason = ctx.cancellationReason := by
  cases h with
  | requestCancel => simp [RequestCancel, SetCancellationReason, if_neg hr]
  | engineCancel r hrr => simp [SetCancellationReason, if_neg hr]
  | _ => rfl

theorem reachable_reason_sticky (ctx ctx' : TaskContext) (h : Reachable ctx ctx')
    (hr : ctx.cancellationReason ≠ TaskCancellationReason.kNone) :
    ctx'.cancellationReason = ctx.cancellationReason := by
  induction h with
  | refl => rfl
  | tail hab hbc ih => rw [step_reason_sticky _ _ hbc (by rw [ih]; exact hr), ih]

/-- C5: `RequestCancel` is idempotent; a non-`kNone` cancellation reason is
never changed by any step (in particular never reset to `kNone` and never
replaced by another value), also along whole executions; `RequestCancel` sets
`kUserRequest` only when no reason is present yet and otherwise leaves the
present reason untouched. It is a pure total state update (non-blocking). -/
theorem c5_requestCancel_idempotent :
    (∀ ctx : TaskContext, RequestCancel (RequestCancel ctx) = RequestCancel ctx)
    ∧ (∀ ctx ctx' : TaskContext, Step ctx ctx' →
      ctx.cancellationReason ≠ TaskCancellationReason.kNone →
      ctx'.cancellationReason = ctx.cancellationReason)
    ∧ (∀ ctx ctx' : TaskContext, Reachable ctx ctx' →
      ctx.cancellationReason ≠ TaskCancellationReason.kNone →
      ctx'.cancellationReason = ctx.cancellationReason)
    ∧ (∀ ctx : TaskContext, ctx.cancellationReason = TaskCancellationReason.kNone →
      (RequestCancel ctx).cancellationReason = TaskCancellationReason.kUserRequest)
    ∧ (∀ ctx : TaskContext, ctx.cancellationReason ≠ TaskCancellationReason.kNone →
      (RequestCancel ctx).cancellationReason = ctx.cancellationReason) := by
  refine ⟨?_, step_reason_sticky, reachable_reason_sticky, ?_, ?_⟩
  · intro ctx
    rcases ctx with ⟨s, imp, r⟩
    rcases r <;> rfl
  · intro ctx hr
    simp [RequestCancel, SetCancellationReason, if_pos hr]
  · intro ctx hr
    simp [RequestCancel, SetCancellationReason, if_neg hr]

theorem c5_requestCancel_idempotent_witness :
    (RequestCancel ⟨State.kRunning, Importance.kNormal, TaskCancellationReason.kTimeout⟩).cancellationReason
      = TaskCancellationReason.kTimeout :=
  c5_requestCancel_idempotent.2.2.2.2
    ⟨State.kRunning, Importance.kNormal, TaskCancellationReason.kTimeout⟩ (by decide)

theorem requestCancel_reason_ne_none (ctx : TaskContext) :
    (RequestCancel ctx).cancellationReason ≠ TaskCancellationReason.kNone := by
  rcases ctx with ⟨s, imp, r⟩
  rcases r <;> simp [RequestCancel, SetCancellationReason]

theorem cancelStep_reason (ctx : TaskContext) :
    (CancelStep ctx).cancellationReason = ctx.cancellationReason := by
  rcases ctx with ⟨s, imp, r⟩
  rcases s <;> rcases imp <;> rfl

theorem cancelStep_state_ne_invalid (ctx : TaskContext)
    (hs : ctx.state ≠ State.kInvalid) : (CancelStep ctx).state ≠ State.kInvalid := by
  rcases ctx with ⟨s, imp, r⟩
  rcases s <;> rcases imp <;> simp_all [CancelStep]

theorem cancelStep_eq_of_finished (ctx : TaskContext)
    (hf : TaskBase.IsFinished ctx = true) : CancelStep ctx = ctx := by
  rw [isFinished_iff] at hf
  rcases hf with h | h <;> simp [CancelStep, h]

theorem cancelRank_eq_zero_of_finished (ctx : TaskContext)
    (hf : TaskBase.IsFinished ctx = true) : CancelRank ctx = 0 := by
  rw [isFinished_iff] at hf
  rcases hf with h | h <;> simp [CancelRank, h]

theorem cancelStep_step (ctx : TaskContext) (hs : ctx.state ≠ State.kInvalid)
    (hr : ctx.cancellationReason ≠ TaskCancellationReason.kNone)
    (hf : TaskBase.IsFinished ctx = false) : Step ctx (CancelStep ctx) := by
  rcases h : ctx.state with _ | _ | _ | _ | _ | _ | _
  · exact absurd h hs
  · simpa [CancelStep, h] using Step.submit ctx h
  · by_cases hc : ctx.importance = Importance.kCritical
    · simpa [CancelStep, h, hc] using Step.dequeueRun ctx h (Or.inr hc)
    · have hn : ctx.importance = Importance.kNormal := by
        rcases hi : ctx.importance
        · rfl
        · exact absurd hi hc
      simpa [CancelStep, h, hn] using Step.dequeueCancelled ctx h hn hr
  · simpa [CancelStep, h] using Step.cancelAtSuspensionPoint ctx h hr
  · simpa [CancelStep, h] using Step.resume ctx h
  · simp [TaskBase.IsFinished, h] at hf
  · simp [TaskBase.IsFinished, h] at hf

theorem cancelRank_decreases (ctx : TaskContext) (hs : ctx.state ≠ State.kInvalid)
    (hf : TaskBase.IsFinished ctx = false) :
    CancelRank (CancelStep ctx) < CancelRank ctx := by
  rcases h : ctx.state with _ | _ | _ | _ | _ | _ | _
  · exact absurd h hs
  · simp [CancelStep, CancelRank, h]
  · by_cases hc : ctx.importance = Importance.kCritical <;>
      simp [CancelStep, CancelRank, h, hc]
  · simp [CancelStep, CancelRank, h]
  · simp [CancelStep, CancelRank, h]
  · simp [TaskBase.IsFinished, h] at hf
  · simp [TaskBase.IsFinished, h] at hf

theorem cancelStepIter_drives (n : Nat) :
    ∀ ctx : TaskContext, ctx.state ≠ State.kInvalid →
      ctx.cancellationReason ≠ TaskCancellationReason.kNone →
      CancelRank ctx ≤ n →
      TaskBase.IsFinished (CancelStepIter n ctx) = true ∧
        Reachable ctx (CancelStepIter n ctx) := by
  induction n with
  | zero =>
    intro ctx hs hr hrank
    have hfin : TaskBase.IsFinished ctx = true := by
      rcases h : ctx.state with _ | _ | _ | _ | _ | _ | _
      · exact absurd h hs
      · simp [CancelRank, h] at hrank
      · simp [CancelRank, h] at hrank
      · simp [CancelRank, h] at hrank
      · simp [CancelRank, h] at hrank
      · rw [isFinished_iff]
        simp [h]
      · rw [isFinished_iff]
        simp [h]
    exact ⟨hfin, Relation.ReflTransGen.refl⟩
  | succ n ih =>
    intro ctx hs hr hrank
    by_cases hf : TaskBase.IsFinished ctx = true
    · have heq : CancelStep ctx = ctx := cancelStep_eq_of_finished ctx hf
      have : CancelStepIter (n + 1) ctx = CancelStepIter n ctx := by
        simp [CancelStepIter, heq]
      rw [this]
      exact ih ctx hs hr (by rw [cancelRank_eq_zero_of_finished ctx hf]; exact Nat.zero_le n)
    · have hf' : TaskBase.IsFinished ctx = false := by
        rcases hb : TaskBase.IsFinished ctx
        · rfl
        · exact absurd hb hf
      have hstep := cancelStep_step ctx hs hr hf'
      have hrest := ih (CancelStep ctx) (cancelStep_state_ne_invalid ctx hs)
        (by rw [cancelStep_reason]; exact hr)
        (Nat.le_of_lt_succ (Nat.lt_of_lt_of_le (cancelRank_decreases ctx hs hf') hrank))
      refine ⟨hrest.1, ?_⟩
      exact Relation.ReflTransGen.head hstep hrest.2

theorem cancelRank_le_four (ctx : TaskContext) : CancelRank ctx ≤ 4 := by
  rcases h : ctx.state <;> simp [CancelRank, h]

/-- C6: `SyncCancel` on any valid context is a total function (never throws,
never deadlocks — also when the target is currently `kRunning`, i.e. when
invoked from within the target's own execution) whose result is a terminal
state, and it refines `RequestCancel` followed by scheduler steps driving the
target to that terminal state. -/
theorem c6_syncCancel_terminal (ctx : TaskContext) (hs : ctx.state ≠ State.kInvalid) :
    TaskBase.IsFinished (SyncCancel ctx) = true ∧
      Reachable (RequestCancel ctx) (SyncCancel ctx) := by
  have h := cancelStepIter_drives 4 (RequestCancel ctx) hs
    (requestCancel_reason_ne_none ctx) (cancelRank_le_four _)
  exact ⟨h.1, h.2⟩

theorem c6_syncCancel_terminal_witness :
    TaskBase.IsFinished
      (SyncCancel ⟨State.kRunning, Importance.kNormal, TaskCancellationReason.kNone⟩) = true :=
  (c6_syncCancel_terminal ⟨State.kRunning, Importance.kNormal, TaskCancellationReason.kNone⟩
    (by decide)).1

theorem waitRun_finished_mem (dl : Deadline) (trace : List WaitObs)
    (h : WaitUntilRun dl trace = some WaitForOutcome.finished) :
    ∃ o ∈ trace, o.targetFinished = true := by
  induction trace with
  | nil => simp [WaitUntilRun] at h
  | cons o rest ih =>
    rw [WaitUntilRun] at h
    rcases hp : WaitUntilPoll dl o with _ | r
    · rw [hp] at h
      obtain ⟨o', hmem, ho'⟩ := ih h
      exact ⟨o', List.mem_cons_of_mem o hmem, ho'⟩
    · rw [hp] at h
      have hr : r = WaitForOutcome.finished := by
        simpa using h
      rw [hr] at hp
      rw [WaitUntilPoll] at hp
      split_ifs at hp with h1 h2 h3
      · simp at hp
      · exact ⟨o, List.mem_cons_self o rest, h2⟩
      · simp at hp

theorem waitRun_interrupted_mem (dl : Deadline) (trace : List WaitObs)
    (h : WaitUntilRun dl trace = some WaitForOutcome.interrupted) :
    ∃ o ∈ trace, o.callerCancelRequested = true ∧ o.blockersActive = false := by
  induction trace with
  | nil => simp [WaitUntilRun] at h
  | cons o rest ih =>
    rw [WaitUntilRun] at h
    rcases hp : WaitUntilPoll dl o with _ | r
    · rw [hp] at h
      obtain ⟨o', hmem, ho'⟩ := ih h
      exact ⟨o', List.mem_cons_of_mem o hmem, ho'⟩
    · rw [hp] at h
      have hr : r = WaitForOutcome.interrupted := by
        simpa using h
      rw [hr] at hp
      rw [WaitUntilPoll] at hp
      split_ifs at hp with h1 h2 h3
      · rw [Bool.and_eq_true, Bool.not_eq_true'] at h1
        exact ⟨o, List.mem_cons_self o rest, h1⟩
      · simp at hp
      · simp at hp

theorem waitRun_timedOut_mem (dl : Deadline) (trace : List WaitObs)
    (h : WaitUntilRun dl trace = some WaitForOutcome.timedOut) :
    ∃ o ∈ trace, o.targetFinished = false ∧ dl.IsReached o.time = true := by
  induction trace with
  | nil => simp [WaitUntilRun] at h
  | cons o rest ih =>
    rw [WaitUntilRun] at h
    rcases hp : WaitUntilPoll dl o with _ | r
    · rw [hp] at h
      obtain ⟨o', hmem, ho'⟩ := ih h
      exact ⟨o', List.mem_cons_of_mem o hmem, ho'⟩
    · rw [hp] at h
      have hr : r = WaitForOutcome.timedOut := by
        simpa using h
      rw [hr] at hp
      rw [WaitUntilPoll] at hp
      split_ifs at hp with h1 h2 h3
      · simp at hp
      · simp at hp
      · rw [Bool.not_eq_true] at h2
        exact ⟨o, List.mem_cons_self o rest, h2, h3⟩

theorem waitRun_not_interrupted (dl : Deadline) (trace : List WaitObs)
    (hnc : ∀ o ∈ trace, (o.callerCancelRequested && !o.blockersActive) = false) :
    WaitUntilRun dl trace ≠ some WaitForOutcome.interrupted := by
  intro h
  obtain ⟨o, hmem, hc, hb⟩ := waitRun_interrupted_mem dl trace h
  have := hnc o hmem
  rw [hc, hb] at this
  simp at this

theorem waitRun_prefix_undecided (dl : Deadline) (pre : List WaitObs) :
    ∀ suffix : List WaitObs, (∀ p ∈ pre, WaitUntilPoll dl p = none) →
      WaitUntilRun dl (pre ++ suffix) = WaitUntilRun dl suffix := by
  induction pre with
  | nil => intro suffix _; rfl
  | cons p pre' ih =>
    intro suffix hpre
    rw [List.cons_append, WaitUntilRun, hpre p (List.mem_cons_self p pre')]
    exact ih suffix fun q hq => hpre q (List.mem_cons_of_mem p hq)

theorem wait_unreachable_interrupt_complete (pre : List WaitObs) :
    ∀ (o : WaitObs) (post : List WaitObs), (∀ p ∈ pre, p.targetFinished = false) →
      o.callerCancelRequested = true → o.blockersActive = false →
      WaitUntilRun Deadline.kUnreachable (pre ++ o :: post) = some WaitForOutcome.interrupted := by
  induction pre with
  | nil =>
    intro o post _ hc hb
    rw [List.nil_append, WaitUntilRun, WaitUntilPoll]
    rw [if_pos (by rw [hc, hb]; rfl)]
  | cons p pre' ih =>
    intro o post hpre hc hb
    rw [List.cons_append, WaitUntilRun, WaitUntilPoll]
    by_cases hp : (p.callerCancelRequested && !p.blockersActive) = true
    · rw [if_pos hp]
    · rw [if_neg hp, if_neg, if_neg (by simp [Deadline.IsReached])]
      · exact ih o post (fun q hq => hpre q (List.mem_cons_of_mem p hq)) hc hb
      · rw [hpre p (List.mem_cons_self p pre')]
        simp

/-- C3: the engine-context `Wait` returns normally only once the target has
reached a terminal state, never reports a timeout, and raises the
wait-interrupted failure exactly when the caller's own cancellation is
requested with no cancellation-blocking scope active at a poll taken while
the target had not yet finished. -/
theorem c3_wait_contract (trace : List WaitObs) :
    (TaskBase.Wait trace = some WaitForOutcome.finished →
      ∃ o ∈ trace, o.targetFinished = true)
    ∧ TaskBase.Wait trace ≠ some WaitForOutcome.timedOut
    ∧ (TaskBase.Wait trace = some WaitForOutcome.interrupted →
      ∃ o ∈ trace, o.callerCancelRequested = true ∧ o.blockersActive = false)
    ∧ (∀ pre o post, trace = pre ++ o :: post → (∀ p ∈ pre, p.targetFinished = false) →
      o.callerCancelRequested = true → o.blockersActive = false →
      TaskBase.Wait trace = some WaitForOutcome.interrupted) := by
  refine ⟨waitRun_finished_mem _ trace, ?_, waitRun_interrupted_mem _ trace, ?_⟩
  · intro h
    obtain ⟨o, _, _, hr⟩ := waitRun_timedOut_mem _ trace h
    simp [Deadline.IsReached] at hr
  · intro pre o post heq hpre hc hb
    rw [heq]
    exact wait_unreachable_interrupt_complete pre o post hpre hc hb

theorem c3_wait_contract_witness :
    TaskBase.Wait [⟨0, false, false, false⟩, ⟨1, false, true, false⟩]
      = some WaitForOutcome.interrupted :=
  (c3_wait_contract [⟨0, false, false, false⟩, ⟨1, false, true, false⟩]).2.2.2
    [⟨0, false, false, false⟩] ⟨1, false, true, false⟩ [] rfl
    (by intro p hp; simp at hp; rw [hp]) rfl rfl

/-- C4: the deadline wait never mutates the target context (the caller's
timeout leaves the target's state and cancellation reason unchanged); a
timed-out return happens only from a poll where the target had not finished
and the deadline had elapsed; a caller that is never cancelled without an
active blocker can only observe the two outcomes finished/timed-out (or still
be waiting); and at the first deciding poll a finished target yields
`finished` while an elapsed deadline with an unfinished target yields
`timedOut` — the only discriminator between the two. -/
theorem c4_waitFor_timeout_frame (target : TaskContext) (dl : Deadline) (trace : List WaitObs) :
    (TaskBase.WaitForFull target dl trace).2 = target
    ∧ ((TaskBase.WaitForFull target dl trace).1 = some WaitForOutcome.timedOut →
      ∃ o ∈ trace, o.targetFinished = false ∧ dl.IsReached o.time = true)
    ∧ ((∀ o ∈ trace, (o.callerCancelRequested && !o.blockersActive) = false) →
      WaitUntilRun dl trace = none ∨ WaitUntilRun dl trace = some WaitForOutcome.finished ∨
        WaitUntilRun dl trace = some WaitForOutcome.timedOut)
    ∧ (∀ pre o post, trace = pre ++ o :: post → (∀ p ∈ pre, WaitUntilPoll dl p = none) →
      (o.callerCancelRequested && !o.blockersActive) = false → o.targetFinished = true →
      WaitUntilRun dl trace = some WaitForOutcome.finished)
    ∧ (∀ pre o post, trace = pre ++ o :: post → (∀ p ∈ pre, WaitUntilPoll dl p = none) →
      (o.callerCancelRequested && !o.blockersActive) = false → o.targetFinished = false →
      dl.IsReached o.time = true →
      WaitUntilRun dl trace = some WaitForOutcome.timedOut) := by
  refine ⟨rfl, waitRun_timedOut_mem dl trace, ?_, ?_, ?_⟩
  · intro hnc
    rcases h : WaitUntilRun dl trace with _ | r
    · exact Or.inl rfl
    · rcases r with _ | _ | _
      · exact Or.inr (Or.inl rfl)
      · exact Or.inr (Or.inr rfl)
      · exact absurd h (waitRun_not_interrupted dl trace hnc)
  · intro pre o post heq hpre hno hfin
    rw [heq, waitRun_prefix_undecided dl pre _ hpre, WaitUntilRun, WaitUntilPoll,
      if_neg (by rw [hno]; simp), if_pos hfin]
  · intro pre o post heq hpre hno hfin hdl
    rw [heq, waitRun_prefix_undecided dl pre _ hpre, WaitUntilRun, WaitUntilPoll,
      if_neg (by rw [hno]; simp), if_neg (by rw [hfin]; simp), if_pos hdl]

theorem c4_waitFor_timeout_frame_witness :
    WaitUntilRun (Deadline.timePoint 5) [⟨3, false, false, false⟩, ⟨6, false, false, false⟩]
      = some WaitForOutcome.timedOut :=
  (c4_waitFor_timeout_frame completedCtx (Deadline.timePoint 5)
      [⟨3, false, false, false⟩, ⟨6, false, false, false⟩]).2.2.2.2
    [⟨3, false, false, false⟩] ⟨6, false, false, false⟩ [] rfl
    (by intro p hp; simp at hp; rw [hp]; rfl) rfl rfl rfl

/-- C7: the duration overload `TaskBase::WaitFor` and the time-point overload
of `TaskBase::WaitUntil` are pure convenience conversions: each is
observationally equal to the absolute-`Deadline` wait applied to
`Deadline::FromDuration` resp. `Deadline::FromTimePoint`, exactly as the
template forwarders in task_base.hpp lines 188-196 are written. -/
theorem c7_overloads_forward :
    (∀ (d now : Int) (trace : List WaitObs),
      TaskBase.WaitFor d now trace = TaskBase.WaitUntilD (Deadline.FromDuration now d) trace)
    ∧ (∀ (t : Int) (trace : List WaitObs),
      TaskBase.WaitUntilTimePoint t trace = TaskBase.WaitUntilD (Deadline.FromTimePoint t) trace) :=
  ⟨fun _ _ _ => rfl, fun _ _ => rfl⟩

/-- C8: a handle is invalid after default construction, after `Detach()` and
after `Get()`; an invalid handle still answers the validity/state checks
(`IsValid` false, `GetState` `kInvalid`) but rejects every other operation
with the defined invalid-handle error — never a silent no-op — while a valid
handle never produces that error. -/
theorem c8_invalid_handle_rejects :
    TaskBaseHandle.IsValid TaskBaseHandle.Default = false
    ∧ TaskBaseHandle.GetState TaskBaseHandle.Default = State.kInvalid
    ∧ (∀ (hd : TaskBaseHandle) (dl : Deadline) (trace : List WaitObs) r,
      TaskBaseHandle.RunOp hd HandleOp.detach dl trace = Except.ok r →
        r.2.IsValid = false)
    ∧ (∀ (hd : TaskBaseHandle) (dl : Deadline) (trace : List WaitObs) r,
      TaskBaseHandle.RunOp hd HandleOp.get dl trace = Except.ok r →
        r.2.IsValid = false)
    ∧ (∀ (hd : TaskBaseHandle) (op : HandleOp) (dl : Deadline) (trace : List WaitObs),
      hd.IsValid = false →
        TaskBaseHandle.RunOp hd op dl trace = Except.error HandleUsageError.invalidHandle)
    ∧ (∀ (hd : TaskBaseHandle) (op : HandleOp) (dl : Deadline) (trace : List WaitObs),
      hd.IsValid = true →
        ∃ r, TaskBaseHandle.RunOp hd op dl trace = Except.ok r) := by
  refine ⟨rfl, rfl, ?_, ?_, ?_, ?_⟩
  · intro hd dl trace r hok
    rcases hd with ⟨_ | ctx⟩
    · simp [TaskBaseHandle.RunOp] at hok
    · simp [TaskBaseHandle.RunOp] at hok
      rw [← hok]
      rfl
  · intro hd dl trace r hok
    rcases hd with ⟨_ | ctx⟩
    · simp [TaskBaseHandle.RunOp] at hok
    · simp [TaskBaseHandle.RunOp] at hok
      rw [← hok]
      rfl
  · intro hd op dl trace hinv
    rcases hd with ⟨_ | ctx⟩
    · rfl
    · simp [TaskBaseHandle.IsValid] at hinv
  · intro hd op dl trace hval
    rcases hd with ⟨_ | ctx⟩
    · simp [TaskBaseHandle.IsValid] at hval
    · rcases op <;> exact ⟨_, rfl⟩

theorem c8_invalid_handle_rejects_witness :
    TaskBaseHandle.RunOp TaskBaseHandle.Default HandleOp.syncCancel Deadline.kUnreachable []
      = Except.error HandleUsageError.invalidHandle :=
  c8_invalid_handle_rejects.2.2.2.2.1 TaskBaseHandle.Default HandleOp.syncCancel
    Deadline.kUnreachable [] rfl

theorem runSchedule_none_or {α : Type} (payloads : List α) (i : Nat) :
    ∀ sched : List Nat,
      RunSchedule payloads sched i = none ∨ RunSchedule payloads sched i = payloads[i]? := by
  intro sched
  induction sched with
  | nil => exact Or.inl rfl
  | cons j rest ih =>
    by_cases hij : i = j
    · simp only [RunSchedule]
      rw [if_pos hij]
      exact Or.inr rfl
    · simp only [RunSchedule]
      rw [if_neg hij]
      exact ih

theorem runSchedule_mem {α : Type} (payloads : List α) (i : Nat) :
    ∀ sched : List Nat, i ∈ sched → RunSchedule payloads sched i = payloads[i]? := by
  intro sched hmem
  induction sched with
  | nil => simp at hmem
  | cons j rest ih =>
    by_cases hij : i = j
    · simp only [RunSchedule]
      rw [if_pos hij]
    · simp only [RunSchedule]
      rw [if_neg hij]
      exact ih (by rcases List.mem_cons.mp hmem with h | h; exact absurd h hij; exact h)

theorem runSchedule_complete {α : Type} (payloads : List α) (sched : List Nat)
    (hc : ∀ i, i < payloads.length → i ∈ sched) :
    ∀ i, RunSchedule payloads sched i = payloads[i]? := by
  intro i
  by_cases hi : i < payloads.length
  · exact runSchedule_mem payloads i sched (hc i hi)
  · rcases runSchedule_none_or payloads i sched with h | h
    · rw [h, List.getElem?_eq_none (Nat.le_of_not_lt hi)]
    · exact h

theorem collectGets_shift {ε α : Type} (store : Nat → Option (Except ε α)) :
    ∀ l : List Nat,
      CollectGets store (l.map Nat.succ) = CollectGets (fun i => store (i + 1)) l := by
  intro l
  induction l with
  | nil => rfl
  | cons i rest ih =>
    rw [List.map_cons, CollectGets, CollectGets, ih]

theorem collectGets_range {ε α : Type} :
    ∀ (tasks : List (Except ε α)) (store : Nat → Option (Except ε α)),
      (∀ i, store i = tasks[i]?) →
      CollectGets store (List.range tasks.length) = some (SequenceResults tasks) := by
  intro tasks
  induction tasks with
  | nil => intro store _; rfl
  | cons t ts ih =>
    intro store hstore
    have h0 : store 0 = some t := by
      rw [hstore 0]
      simp
    have hshift : ∀ i, store (i + 1) = ts[i]? := by
      intro i
      rw [hstore (i + 1)]
      simp
    rw [List.length_cons, List.range_succ_eq_map, CollectGets, h0]
    rcases t with e | a
    · rfl
    · have hrest : CollectGets store (List.map Nat.succ (List.range ts.length))
          = some (SequenceResults ts) := by
        rw [collectGets_shift store (List.range ts.length)]
        exact ih (fun i => store (i + 1)) hshift
      rw [hrest]
      rcases hs : SequenceResults ts with e | tail <;> simp [SequenceResults, hs]

theorem sequenceResults_all_ok {ε α : Type} (mkPool : Endpoint → Except ε α)
    (poolOf : Endpoint → α) :
    ∀ l : List Endpoint, (∀ e ∈ l, mkPool e = Except.ok (poolOf e)) →
      SequenceResults (l.map mkPool) = Except.ok (l.map poolOf) := by
  intro l
  induction l with
  | nil => intro _; rfl
  | cons e rest ih =>
    intro hall
    rw [List.map_cons, List.map_cons, hall e (List.mem_cons_self e rest), SequenceResults,
      ih (fun p hp => hall p (List.mem_cons_of_mem e hp))]

theorem sequenceResults_first_error {ε α : Type} (mkPool : Endpoint → Except ε α) (err : ε)
    (e : Endpoint) (he : mkPool e = Except.error err) :
    ∀ (pre : List Endpoint) (post : List Endpoint),
      (∀ p ∈ pre, ∃ a, mkPool p = Except.ok a) →
      SequenceResults ((pre ++ e :: post).map mkPool) = Except.error err := by
  intro pre
  induction pre with
  | nil =>
    intro post _
    rw [List.nil_append, List.map_cons, he, SequenceResults]
  | cons p pre' ih =>
    intro post hpre
    obtain ⟨a, ha⟩ := hpre p (List.mem_cons_self p pre')
    rw [List.cons_append, List.map_cons, ha, SequenceResults,
      ih post (fun q hq => hpre q (List.mem_cons_of_mem p hq))]

/-- C9: with a complete execution schedule, constructing a `Cluster` over `N`
endpoints submits exactly one task per endpoint and collects them via
sequential `Get` into exactly one pool per endpoint, in endpoint order and
independent of the order in which the tasks complete; a failure in any unit
propagates to the collecting caller (the earliest failing endpoint's error, in
submission order) instead of being dropped. -/
theorem c9_cluster_init {ε α : Type} (endpoints : List Endpoint)
    (mkPool : Endpoint → Except ε α) (sched : List Nat)
    (hc : ∀ i, i < endpoints.length → i ∈ sched) :
    (endpoints.map mkPool).length = endpoints.length
    ∧ Cluster.Init endpoints mkPool sched = some (SequenceResults (endpoints.map mkPool))
    ∧ (∀ poolOf : Endpoint → α, (∀ e ∈ endpoints, mkPool e = Except.ok (poolOf e)) →
      Cluster.Init endpoints mkPool sched = some (Except.ok (endpoints.map poolOf)))
    ∧ (∀ (pre : List Endpoint) (e : Endpoint) (post : List Endpoint) (err : ε),
      endpoints = pre ++ e :: post → mkPool e = Except.error err →
      (∀ p ∈ pre, ∃ a, mkPool p = Except.ok a) →
      Cluster.Init endpoints mkPool sched = some (Except.error err)) := by
  have hmain : Cluster.Init endpoints mkPool sched
      = some (SequenceResults (endpoints.map mkPool)) := by
    rw [Cluster.Init]
    have hlen : endpoints.length = (endpoints.map mkPool).length :=
      (List.length_map endpoints mkPool).symm
    rw [hlen]
    exact collectGets_range (endpoints.map mkPool) _
      (runSchedule_complete (endpoints.map mkPool) sched (by
        intro i hi
        exact hc i (by rwa [List.length_map] at hi)))
  refine ⟨List.length_map endpoints mkPool, hmain, ?_, ?_⟩
  · intro poolOf hall
    rw [hmain, sequenceResults_all_ok mkPool poolOf endpoints hall]
  · intro pre e post err heq he hpre
    rw [hmain, heq, sequenceResults_first_error mkPool err e he pre post hpre]

theorem c9_cluster_init_witness :
    Cluster.Init (ε := Unit) [⟨"a"⟩, ⟨"b"⟩] (fun e => Except.ok e.host) [1, 0]
      = some (Except.ok ["a", "b"]) :=
  (c9_cluster_init [⟨"a"⟩, ⟨"b"⟩] (fun e => Except.ok e.host) [1, 0]
    (by decide)).2.2.1 (fun e => e.host) (fun _ _ => rfl)

theorem getPoolCalls_round_robin {α : Type} (pools : List α) :
    ∀ k v : Nat, v + k ≤ 2 ^ 64 →
      (Cluster.GetPoolCalls k (⟨pools, v⟩ : Cluster α)).1 =
        (List.range k).map (fun i => pools[(v + i) % pools.length]?) := by
  intro k
  induction k with
  | zero => intro v _; rfl
  | succ k ih =>
    intro v hv
    have hstep : (Cluster.GetPoolCalls (k + 1) (⟨pools, v⟩ : Cluster α)).1
        = pools[v % pools.length]? ::
          (Cluster.GetPoolCalls k (⟨pools, (v + 1) % 2 ^ 64⟩ : Cluster α)).1 := rfl
    by_cases hlt : v + 1 < 2 ^ 64
    · have hmod : (v + 1) % 2 ^ 64 = v + 1 := Nat.mod_eq_of_lt hlt
      rw [hstep, hmod, ih (v + 1) (by omega), List.range_succ_eq_map, List.map_cons,
        List.map_map]
      have htail : List.map ((fun i => pools[(v + i) % pools.length]?) ∘ Nat.succ)
          (List.range k) = List.map (fun i => pools[(v + 1 + i) % pools.length]?)
          (List.range k) := by
        apply List.map_congr_left
        intro i _
        show pools[(v + (i + 1)) % pools.length]? = pools[(v + 1 + i) % pools.length]?
        have harith : v + (i + 1) = v + 1 + i := by omega
        rw [harith]
      rw [htail]
      simp
    · have hk : k = 0 := by omega
      subst hk
      have hnil : (Cluster.GetPoolCalls 0 (⟨pools, (v + 1) % 2 ^ 64⟩ : Cluster α)).1 = [] := rfl
      rw [hstep, hnil]
      simp [List.range_succ]

/-- C10: with a non-empty pool list of size `n`, `GetPool` returns
`pools_[c mod n]` where `c` is the counter value before the post-increment
(and that lookup is in bounds, hence well-defined); the pools are untouched
and the counter advances by one modulo `2 ^ 64`; `k` successive calls that do
not wrap the 64-bit counter return pools `(c+i) mod n` for `i < k` — strict
round-robin; with an empty pool list the selection is not well-defined (the
unguarded modulo/indexing produces no pool). -/
theorem c10_getPool_round_robin {α : Type} (c : Cluster α) (hn : 0 < c.pools_.length) :
    (Cluster.GetPool c).1 = c.pools_[c.current_pool_ind_ % c.pools_.length]?
    ∧ (∃ a, (Cluster.GetPool c).1 = some a)
    ∧ (Cluster.GetPool c).2.pools_ = c.pools_
    ∧ (Cluster.GetPool c).2.current_pool_ind_ = (c.current_pool_ind_ + 1) % 2 ^ 64
    ∧ (∀ k, c.current_pool_ind_ + k ≤ 2 ^ 64 →
      (Cluster.GetPoolCalls k c).1 =
        (List.range k).map (fun i => c.pools_[(c.current_pool_ind_ + i) % c.pools_.length]?))
    ∧ (∀ c' : Cluster α, c'.pools_.length = 0 → (Cluster.GetPool c').1 = none) := by
  refine ⟨rfl, ?_, rfl, rfl, ?_, ?_⟩
  · exact ⟨_, List.getElem?_eq_getElem (Nat.mod_lt _ hn)⟩
  · intro k hk
    exact getPoolCalls_round_robin c.pools_ k c.current_pool_ind_ hk
  · intro c' h0
    have hnil : c'.pools_ = [] := List.length_eq_zero.mp h0
    simp [Cluster.GetPool, WrappingIncrement, hnil]

theorem c10_getPool_round_robin_witness :
    (Cluster.GetPool (⟨[10, 20, 30], 5⟩ : Cluster Nat)).1 = some 30 := by
  have h := (c10_getPool_round_robin (⟨[10, 20, 30], 5⟩ : Cluster Nat) (by decide)).1
  simpa using h

end Userver
